import Mathlib

/-!
# Verification of the recipe-app-api reconciler and view-layer queries

Shallow embedding of the per-user recipe/tag/ingredient data model
(`app/core/models.py`), the recipe serializer's nested reconciliation logic
(`app/recipe/serializers.py`), the view-layer queryset scoping and filters
(`app/recipe/views.py`), and the user serializer (`app/user/serializers.py`).

Modelling conventions:
* primary keys and account (user) references are `Nat`;
* `price` (a 2-place decimal) is carried as an integer number of hundredths;
* the relational store is explicit state (`DB`), threaded through operations;
* HTTP-layer parsing of query parameters is an external boundary: filter
  parameters arrive already parsed (`Option (List Nat)` for id lists,
  `Option Nat` for the `assigned_only` integer), with `none` standing for an
  absent (or falsy-empty) parameter;
* the framework's object lookup (`get_object` over the user-filtered
  queryset) returns `Except ApiError` with a `notFound`/`forbidden`
  distinction, to state which of the two the code can produce.
-/

/-- A `Tag` or `Ingredient` row (`core/models.py`): both models are an id, an
owning user (foreign key) and a name.  The two tables are structurally
identical, so one row type serves for both. -/
structure Attr where
  id : Nat
  user : Nat
  name : String
  deriving DecidableEq, Repr

/-- A tag or ingredient table: its rows plus the auto-increment counter the
store uses for the next created row's primary key. -/
structure AttrTable where
  rows : List Attr
  nextId : Nat
  deriving DecidableEq, Repr

/-- `Tag.objects.get(user=..., name=...)` restricted to the first match:
the lookup half of `get_or_create`, always scoped to one user. -/
def AttrTable.find_for (t : AttrTable) (user : Nat) (name : String) : Option Attr :=
  t.rows.find? (fun a => a.user == user && a.name == name)

/-- `Tag.objects.get_or_create(user=auth_user, **tag)` /
`Ingredient.objects.get_or_create(user=auth_user, **ingredient)`:
return the matching row's id if one exists for this user, otherwise append a
fresh row owned by this user and return its id. -/
def AttrTable.get_or_create (t : AttrTable) (user : Nat) (name : String) :
    AttrTable × Nat :=
  match t.find_for user name with
  | some a => (t, a.id)
  | none =>
      ({ rows := t.rows ++ [{ id := t.nextId, user := user, name := name }],
         nextId := t.nextId + 1 }, t.nextId)

/-- `recipe.tags.add(obj)` on a many-to-many association set: a set-insert on
the recipe's association list (adding an already-linked id is a no-op). -/
def m2mAdd (assoc : List Nat) (i : Nat) : List Nat :=
  if i ∈ assoc then assoc else assoc ++ [i]

/-- `RecipeSerializer._get_or_create_tags` / `_get_or_create_ingredients`:
for each name in input order, `get_or_create` it for the authenticated user
and add the resulting row to the recipe's association set.  The two source
methods are textually identical up to the model, so one definition serves
both, parameterised by the table it runs against. -/
def get_or_create_attrs (t : AttrTable) (user : Nat) (names : List String)
    (assoc : List Nat) : AttrTable × List Nat :=
  match names with
  | [] => (t, assoc)
  | n :: rest =>
      let p := t.get_or_create user n
      get_or_create_attrs p.1 user rest (m2mAdd assoc p.2)

/-- A `Recipe` row (`core/models.py`) together with its two many-to-many
association sets (the join-table links, carried as id lists). -/
structure Recipe where
  id : Nat
  user : Nat
  title : String
  description : String
  time_minutes : Int
  price : Int
  link : String
  tagIds : List Nat
  ingredientIds : List Nat
  deriving DecidableEq, Repr

/-- The relational store visible to the recipe API: the recipe table with its
auto-increment counter, and the tag and ingredient tables. -/
structure DB where
  recipes : List Recipe
  nextRecipeId : Nat
  tags : AttrTable
  ingredients : AttrTable
  deriving DecidableEq, Repr

/-- The empty store (fresh database; auto-increment counters start at 1). -/
def emptyDB : DB :=
  { recipes := [], nextRecipeId := 1,
    tags := { rows := [], nextId := 1 },
    ingredients := { rows := [], nextId := 1 } }

/-- Validated input for recipe creation (`RecipeDetailSerializer`): `title`,
`time_minutes` and `price` are required; `link` and `description` fall back
to the model's blank default; `tags`/`ingredients` are optional embedded
name lists (`none` = key absent). -/
structure CreatePayload where
  title : String
  time_minutes : Int
  price : Int
  description : Option String
  link : Option String
  tags : Option (List String)
  ingredients : Option (List String)
  deriving Repr

/-- Validated input for a (partial) recipe update: every writable field is
optional (`none` = key absent from the payload).  The `user` field models a
payload that tries to set the recipe's owner; it is not among the
serializer's declared fields (`Meta.fields`), so — as in the source — no
operation ever reads it. -/
structure UpdatePayload where
  title : Option String
  time_minutes : Option Int
  price : Option Int
  description : Option String
  link : Option String
  user : Option Nat
  tags : Option (List String)
  ingredients : Option (List String)
  deriving Repr

/-- `RecipeSerializer.create` combined with `RecipeViewSet.perform_create`
(which supplies `user=self.request.user`): pop the tag and ingredient name
lists (absent key defaults to the empty list), create the recipe row from
the remaining fields, then reconcile tags and ingredients against it. -/
def RecipeSerializer.create (db : DB) (auth_user : Nat) (p : CreatePayload) :
    DB × Recipe :=
  let tags := p.tags.getD []
  let ingredients := p.ingredients.getD []
  let recipe : Recipe :=
    { id := db.nextRecipeId, user := auth_user, title := p.title,
      description := p.description.getD "", time_minutes := p.time_minutes,
      price := p.price, link := p.link.getD "", tagIds := [],
      ingredientIds := [] }
  let tp := get_or_create_attrs db.tags auth_user tags []
  let ip := get_or_create_attrs db.ingredients auth_user ingredients []
  let recipe := { recipe with tagIds := tp.2, ingredientIds := ip.2 }
  ({ recipes := db.recipes ++ [recipe], nextRecipeId := db.nextRecipeId + 1,
     tags := tp.1, ingredients := ip.1 }, recipe)

/-- The `setattr` loop at the end of `RecipeSerializer.update`: overwrite
exactly the scalar fields present in `validated_data`.  `tags` and
`ingredients` were popped before the loop; `id` is read-only and `user` is
not a declared serializer field, so neither ever appears in
`validated_data` and neither is touched here. -/
def applyScalarFields (inst : Recipe) (p : UpdatePayload) : Recipe :=
  { inst with
    title := p.title.getD inst.title
    description := p.description.getD inst.description
    time_minutes := p.time_minutes.getD inst.time_minutes
    price := p.price.getD inst.price
    link := p.link.getD inst.link }

/-- `RecipeSerializer.update`: pop `tags`/`ingredients` (default `None`);
when present, `clear()` the corresponding association set and reconcile the
given names onto the emptied set; when absent, leave the set alone.  Then
apply the scalar fields and save.  The updated row replaces the old one in
the store. -/
def RecipeSerializer.update (db : DB) (auth_user : Nat) (inst : Recipe)
    (p : UpdatePayload) : DB × Recipe :=
  let tp := match p.tags with
    | some names => get_or_create_attrs db.tags auth_user names []
    | none => (db.tags, inst.tagIds)
  let ip := match p.ingredients with
    | some names => get_or_create_attrs db.ingredients auth_user names []
    | none => (db.ingredients, inst.ingredientIds)
  let r := applyScalarFields
    { inst with tagIds := tp.2, ingredientIds := ip.2 } p
  ({ db with
      tags := tp.1
      ingredients := ip.1
      recipes := db.recipes.map (fun x => if x.id == inst.id then r else x) },
   r)

/-- Outcome of the framework's object lookup on a detail endpoint: DRF can in
principle answer 404 (`notFound`) or 403 (`forbidden`); which one this code
produces is part of what is verified. -/
inductive ApiError where
  | notFound
  | forbidden
  deriving DecidableEq, Repr

/-- `get_object` on `RecipeViewSet`: the detail lookup by primary key runs
against `get_queryset`, which is filtered to `user=self.request.user`, so an
id is found only when it exists *and* belongs to the caller. -/
def RecipeViewSet.get_object (db : DB) (auth_user : Nat) (rid : Nat) :
    Option Recipe :=
  db.recipes.find? (fun r => r.id == rid && r.user == auth_user)

/-- `GET /recipes/{id}` (retrieve): 404 when the owner-scoped lookup fails. -/
def RecipeViewSet.retrieve (db : DB) (auth_user : Nat) (rid : Nat) :
    Except ApiError Recipe :=
  match RecipeViewSet.get_object db auth_user rid with
  | some r => .ok r
  | none => .error .notFound

/-- `PATCH /recipes/{id}`: owner-scoped lookup, then the serializer's
`update`. -/
def RecipeViewSet.update (db : DB) (auth_user : Nat) (rid : Nat)
    (p : UpdatePayload) : Except ApiError (DB × Recipe) :=
  match RecipeViewSet.get_object db auth_user rid with
  | some r => .ok (RecipeSerializer.update db auth_user r p)
  | none => .error .notFound

/-- `DELETE /recipes/{id}`: owner-scoped lookup, then row deletion (the
recipe's association links go with the row; tag/ingredient rows are not
cascade-deleted). -/
def RecipeViewSet.destroy (db : DB) (auth_user : Nat) (rid : Nat) :
    Except ApiError DB :=
  match RecipeViewSet.get_object db auth_user rid with
  | some r =>
      .ok { db with recipes := db.recipes.filter (fun x => !(x.id == r.id)) }
  | none => .error .notFound

/-- `get_object` on `BaseRecipeAttrViewSet` (tags and ingredients): the same
owner-scoped lookup against the user-filtered queryset. -/
def BaseRecipeAttrViewSet.get_object (t : AttrTable) (auth_user : Nat)
    (aid : Nat) : Option Attr :=
  t.rows.find? (fun a => a.id == aid && a.user == auth_user)

/-- `PATCH /tags/{id}` or `/ingredients/{id}` (`UpdateModelMixin` with the
`{id, name}` serializer, `id` read-only): rename the row when the
owner-scoped lookup finds it. -/
def BaseRecipeAttrViewSet.update_name (t : AttrTable) (auth_user : Nat)
    (aid : Nat) (newName : String) : Except ApiError AttrTable :=
  match BaseRecipeAttrViewSet.get_object t auth_user aid with
  | some a =>
      let rows := t.rows.map
        (fun x => if x.id == a.id then { x with name := newName } else x)
      .ok { t with rows := rows }
  | none => .error .notFound

/-- `DELETE /tags/{id}` or `/ingredients/{id}` (`DestroyModelMixin`): delete
the row when the owner-scoped lookup finds it. -/
def BaseRecipeAttrViewSet.destroy (t : AttrTable) (auth_user : Nat)
    (aid : Nat) : Except ApiError AttrTable :=
  match BaseRecipeAttrViewSet.get_object t auth_user aid with
  | some a => .ok { t with rows := t.rows.filter (fun x => !(x.id == a.id)) }
  | none => .error .notFound

/-- The recipe listing order `order_by(-id)`: descending primary key. -/
def recipeGE (a b : Recipe) : Prop := b.id ≤ a.id

instance : DecidableRel recipeGE :=
  fun a b => inferInstanceAs (Decidable (b.id ≤ a.id))

instance : IsTotal Recipe recipeGE :=
  ⟨fun a b => Nat.le_total b.id a.id⟩

instance : IsTrans Recipe recipeGE :=
  ⟨fun _ _ _ hab hbc => Nat.le_trans hbc hab⟩

/-- The tag/ingredient listing order `order_by(-name)`: descending name. -/
def attrGE (a b : Attr) : Prop := b.name ≤ a.name

instance : DecidableRel attrGE :=
  fun a b => inferInstanceAs (Decidable (b.name ≤ a.name))

instance : IsTotal Attr attrGE :=
  ⟨fun a b => le_total b.name a.name⟩

instance : IsTrans Attr attrGE :=
  ⟨fun _ _ _ hab hbc => le_trans hbc hab⟩

/-- `RecipeViewSet.get_queryset` for the list endpoint: optionally filter by
a list of tag ids (`tags__id__in`, keep recipes linked to at least one) and
a list of ingredient ids, then keep only the caller's recipes, order by
descending id, and `distinct()`.  The `filter`-on-rows form models the SQL
join plus `distinct()`: each stored row is considered once. -/
def RecipeViewSet.get_queryset (db : DB) (auth_user : Nat)
    (tagsParam ingredientsParam : Option (List Nat)) : List Recipe :=
  let queryset := db.recipes
  let queryset : List Recipe := match tagsParam with
    | some tag_ids => queryset.filter (fun r => r.tagIds.any (tag_ids.contains ·))
    | none => queryset
  let queryset : List Recipe := match ingredientsParam with
    | some ids => queryset.filter (fun r => r.ingredientIds.any (ids.contains ·))
    | none => queryset
  List.insertionSort recipeGE (queryset.filter (fun r => r.user == auth_user))

/-- `BaseRecipeAttrViewSet.get_queryset`: `assigned_only` comes in as an
integer (absent defaults to 0) and is truthiness-tested; when set, keep only
rows referenced by at least one recipe (`recipe__isnull=False`); then keep
the caller's rows, order by descending name, `distinct()`.  `refs` selects
which association list of a recipe refers into the table (tags or
ingredients). -/
def BaseRecipeAttrViewSet.get_queryset (t : AttrTable)
    (refs : Recipe → List Nat) (db_recipes : List Recipe) (auth_user : Nat)
    (assigned_only_param : Option Nat) : List Attr :=
  let assigned_only := (assigned_only_param.getD 0) != 0
  let queryset := t.rows
  let queryset := if assigned_only then
      queryset.filter (fun a => db_recipes.any (fun r => (refs r).contains a.id))
    else queryset
  List.insertionSort attrGE (queryset.filter (fun a => a.user == auth_user))

/-- `GET /tags` through `TagViewSet` (queryset = the tag table). -/
def TagViewSet.list (db : DB) (auth_user : Nat)
    (assigned_only_param : Option Nat) : List Attr :=
  BaseRecipeAttrViewSet.get_queryset db.tags (fun r => r.tagIds) db.recipes
    auth_user assigned_only_param

/-- `GET /ingredients` through `IngredientViewSet` (queryset = the
ingredient table). -/
def IngredientViewSet.list (db : DB) (auth_user : Nat)
    (assigned_only_param : Option Nat) : List Attr :=
  BaseRecipeAttrViewSet.get_queryset db.ingredients (fun r => r.ingredientIds)
    db.recipes auth_user assigned_only_param

/-- A `User` row (`core/models.py`).  The stored credential is whatever
`set_password` produced; hashing itself is an external collaborator, so the
stored value is carried opaquely. -/
structure User where
  id : Nat
  email : String
  name : String
  password : String
  is_active : Bool
  is_staff : Bool
  deriving DecidableEq, Repr

/-- The user table with its auto-increment counter. -/
structure UserDB where
  users : List User
  nextId : Nat
  deriving DecidableEq, Repr

/-- `UserSerializer.Meta.fields` (`user/serializers.py`). -/
def UserSerializer.fields : List String := ["email", "password", "name"]

/-- The fields marked `write_only` in `UserSerializer.Meta.extra_kwargs`. -/
def UserSerializer.write_only_fields : List String := ["password"]

/-- The `min_length=5` constraint on `password` in `extra_kwargs`. -/
def UserSerializer.password_min_length : Nat := 5

/-- Incoming user payload: each serializer field optional (`none` = key
absent; create requires all three, update is partial). -/
structure UserPayload where
  email : Option String
  password : Option String
  name : Option String
  deriving Repr

/-- Serializer validation shared by create and update: every present field
must satisfy its validators; for `password` that is `min_length=5`.
(Required-field presence on create is checked separately.) -/
def UserSerializer.run_validation (p : UserPayload) : Bool :=
  match p.password with
  | some pw => UserSerializer.password_min_length ≤ pw.length
  | none => true

/-- `UserSerializer.create` + `UserManager.create_user` behind
`CreateUserView`: validation first (field presence, then field validators);
on failure the request is rejected and the store is untouched (`none`
result); on success a new user row is appended with the hashed credential
set. -/
def UserSerializer.create (db : UserDB) (p : UserPayload) :
    UserDB × Option User :=
  match p.email, p.password, p.name with
  | some email, some password, some nm =>
      if UserSerializer.run_validation p then
        let u : User :=
          { id := db.nextId, email := email, name := nm, password := password,
            is_active := true, is_staff := false }
        ({ users := db.users ++ [u], nextId := db.nextId + 1 }, some u)
      else (db, none)
  | _, _, _ => (db, none)

/-- `UserSerializer.update` behind `ManageUserView` (the instance is the
authenticated caller): validation first; then `password` is popped from
`validated_data`, the remaining fields are applied by the base update, and
a present password is installed via `set_password` + `save`. -/
def UserSerializer.update (db : UserDB) (auth_user_id : Nat)
    (p : UserPayload) : UserDB × Option User :=
  if UserSerializer.run_validation p then
    match db.users.find? (fun u => u.id == auth_user_id) with
    | some u =>
        let u' : User :=
          { u with
            email := p.email.getD u.email
            name := p.name.getD u.name
            password := (p.password.getD u.password) }
        let users := db.users.map
          (fun x => if x.id == auth_user_id then u' else x)
        ({ db with users := users }, some u')
    | none => (db, none)
  else (db, none)

/-- Reading one model field of a user as the serializer would render it. -/
def UserSerializer.field_value (u : User) (f : String) : String :=
  if f == "email" then u.email
  else if f == "name" then u.name
  else if f == "password" then u.password
  else ""

/-- `to_representation`: the serialized response body, as key/value pairs —
the declared fields in order, with `write_only` fields skipped on output. -/
def UserSerializer.to_representation (u : User) : List (String × String) :=
  (UserSerializer.fields.filter
    (fun f => !(UserSerializer.write_only_fields.contains f))).map
    (fun f => (f, UserSerializer.field_value u f))

/-- A recipe-level write operation: the two operations the recipe API's
serializer performs against the store (creation via `perform_create` +
`RecipeSerializer.create`, and update through the owner-scoped lookup +
`RecipeSerializer.update`). -/
inductive Op where
  | createRecipe (auth_user : Nat) (p : CreatePayload)
  | updateRecipe (auth_user : Nat) (rid : Nat) (p : UpdatePayload)

/-- Run one operation against the store (a not-found update leaves the store
as it was). -/
def applyOp (db : DB) (op : Op) : DB :=
  match op with
  | .createRecipe u p => (RecipeSerializer.create db u p).1
  | .updateRecipe u rid p =>
      match RecipeViewSet.update db u rid p with
      | .ok dp => dp.1
      | .error _ => db

/-- Run a sequence of operations left to right. -/
def applyOps (db : DB) (ops : List Op) : DB :=
  ops.foldl applyOp db

/-- Every id in an association set resolves to a row of the table owned by
`owner`. -/
def ownedAssoc (t : AttrTable) (owner : Nat) (assoc : List Nat) : Prop :=
  ∀ i ∈ assoc, ∃ a ∈ t.rows, a.id = i ∧ a.user = owner

/-- The per-user scoping invariant: every recipe's tag and ingredient
associations point at rows owned by the recipe's own account. -/
def OwnershipInv (db : DB) : Prop :=
  ∀ r ∈ db.recipes,
    ownedAssoc db.tags r.user r.tagIds ∧
    ownedAssoc db.ingredients r.user r.ingredientIds

/-- Well-formedness of a tag/ingredient table: distinct primary keys, all
below the auto-increment counter. -/
def AttrTable.WF (t : AttrTable) : Prop :=
  (t.rows.map (fun a => a.id)).Nodup ∧ ∀ a ∈ t.rows, a.id < t.nextId

instance : DecidablePred AttrTable.WF := fun t => by
  unfold AttrTable.WF
  infer_instance

instance : DecidablePred OwnershipInv := fun db => by
  unfold OwnershipInv ownedAssoc
  infer_instance

/-! ## Lemmas about the lookup-or-create primitive -/

theorem find_for_some {t : AttrTable} {u : Nat} {n : String} {a : Attr}
    (h : t.find_for u n = some a) : a ∈ t.rows ∧ a.user = u ∧ a.name = n := by
  have hm := List.mem_of_find?_eq_some h
  have hp := List.find?_some h
  simp only [Bool.and_eq_true, beq_iff_eq] at hp
  exact ⟨hm, hp.1, hp.2⟩

theorem find_for_none {t : AttrTable} {u : Nat} {n : String}
    (h : t.find_for u n = none) :
    ∀ a ∈ t.rows, ¬(a.user = u ∧ a.name = n) := by
  intro a ha
  have := List.find?_eq_none.mp h a ha
  simp only [Bool.and_eq_true, beq_iff_eq] at this
  exact fun hc => this ⟨hc.1, hc.2⟩

theorem get_or_create_of_found {t : AttrTable} {u : Nat} {n : String}
    {a : Attr} (h : t.find_for u n = some a) :
    t.get_or_create u n = (t, a.id) := by
  unfold AttrTable.get_or_create
  rw [h]

theorem get_or_create_of_not_found {t : AttrTable} {u : Nat} {n : String}
    (h : t.find_for u n = none) :
    t.get_or_create u n =
      ({ rows := t.rows ++ [{ id := t.nextId, user := u, name := n }],
         nextId := t.nextId + 1 }, t.nextId) := by
  unfold AttrTable.get_or_create
  rw [h]

theorem get_or_create_rows_mono {t : AttrTable} {u : Nat} {n : String}
    {a : Attr} (h : a ∈ t.rows) : a ∈ (t.get_or_create u n).1.rows := by
  cases hf : t.find_for u n with
  | some b => rw [get_or_create_of_found hf]; exact h
  | none => rw [get_or_create_of_not_found hf]; exact List.mem_append_left _ h

theorem get_or_create_ret_owned (t : AttrTable) (u : Nat) (n : String) :
    ∃ a ∈ (t.get_or_create u n).1.rows,
      a.id = (t.get_or_create u n).2 ∧ a.user = u ∧ a.name = n := by
  cases hf : t.find_for u n with
  | some a =>
      rw [get_or_create_of_found hf]
      obtain ⟨hm, hu, hn⟩ := find_for_some hf
      exact ⟨a, hm, rfl, hu, hn⟩
  | none =>
      rw [get_or_create_of_not_found hf]
      exact ⟨_, List.mem_append_right _ (List.mem_singleton_self _), rfl, rfl, rfl⟩

theorem get_or_create_rows_sub {t : AttrTable} {u : Nat} {n : String}
    {a : Attr} (h : a ∈ (t.get_or_create u n).1.rows) :
    a ∈ t.rows ∨ (a.id = t.nextId ∧ a.user = u ∧ a.name = n) := by
  cases hf : t.find_for u n with
  | some b => rw [get_or_create_of_found hf] at h; exact Or.inl h
  | none =>
      rw [get_or_create_of_not_found hf] at h
      rcases List.mem_append.mp h with h | h
      · exact Or.inl h
      · rw [List.mem_singleton.mp h]
        exact Or.inr ⟨rfl, rfl, rfl⟩

theorem get_or_create_nextId_le (t : AttrTable) (u : Nat) (n : String) :
    t.nextId ≤ (t.get_or_create u n).1.nextId := by
  cases hf : t.find_for u n with
  | some b => rw [get_or_create_of_found hf]
  | none => rw [get_or_create_of_not_found hf]; exact Nat.le_succ _

theorem get_or_create_WF {t : AttrTable} (h : t.WF) (u : Nat) (n : String) :
    (t.get_or_create u n).1.WF := by
  cases hf : t.find_for u n with
  | some b => rw [get_or_create_of_found hf]; exact h
  | none =>
      rw [get_or_create_of_not_found hf]
      obtain ⟨hnd, hlt⟩ := h
      refine ⟨?_, ?_⟩
      · simp only [List.map_append, List.map_cons, List.map_nil]
        rw [List.nodup_append]
        refine ⟨hnd, List.nodup_singleton _, ?_⟩
        intro i hi hj
        rw [List.mem_singleton] at hj
        subst hj
        obtain ⟨a, ha, hai⟩ := List.mem_map.mp hi
        exact absurd (hai ▸ hlt a ha) (Nat.lt_irrefl _)
      · intro a ha
        rcases List.mem_append.mp ha with ha | ha
        · exact Nat.lt_succ_of_lt (hlt a ha)
        · rw [List.mem_singleton.mp ha]
          exact Nat.lt_succ_self _

/-! ## Lemmas about the reconciler -/

theorem mem_m2mAdd {assoc : List Nat} {i j : Nat} :
    j ∈ m2mAdd assoc i ↔ j ∈ assoc ∨ j = i := by
  by_cases h : i ∈ assoc
  · simp only [m2mAdd, if_pos h]
    constructor
    · exact Or.inl
    · rintro (hj | rfl)
      · exact hj
      · exact h
  · simp [m2mAdd, if_neg h]

theorem gca_cons (t : AttrTable) (u : Nat) (n : String) (rest : List String)
    (assoc : List Nat) :
    get_or_create_attrs t u (n :: rest) assoc =
      get_or_create_attrs (t.get_or_create u n).1 u rest
        (m2mAdd assoc (t.get_or_create u n).2) := rfl

theorem gca_rows_mono {u : Nat} {names : List String} :
    ∀ {t : AttrTable} {assoc : List Nat} {a : Attr}, a ∈ t.rows →
      a ∈ (get_or_create_attrs t u names assoc).1.rows := by
  induction names with
  | nil => intro t assoc a h; exact h
  | cons n rest ih =>
      intro t assoc a h
      rw [gca_cons]
      exact ih (get_or_create_rows_mono h)

theorem gca_rows_sub {u : Nat} {names : List String} :
    ∀ {t : AttrTable} {assoc : List Nat} {a : Attr},
      a ∈ (get_or_create_attrs t u names assoc).1.rows →
      a ∈ t.rows ∨ (a.user = u ∧ a.name ∈ names) := by
  induction names with
  | nil => intro t assoc a h; exact Or.inl h
  | cons n rest ih =>
      intro t assoc a h
      rw [gca_cons] at h
      rcases ih h with h1 | h1
      · rcases get_or_create_rows_sub h1 with h2 | h2
        · exact Or.inl h2
        · exact Or.inr ⟨h2.2.1, by rw [h2.2.2]; exact List.mem_cons_self _ _⟩
      · exact Or.inr ⟨h1.1, List.mem_cons_of_mem _ h1.2⟩

theorem gca_nextId_le {u : Nat} {names : List String} :
    ∀ {t : AttrTable} {assoc : List Nat},
      t.nextId ≤ (get_or_create_attrs t u names assoc).1.nextId := by
  induction names with
  | nil => intro t assoc; exact Nat.le_refl _
  | cons n rest ih =>
      intro t assoc
      rw [gca_cons]
      exact Nat.le_trans (get_or_create_nextId_le t u n) ih

theorem gca_WF {u : Nat} {names : List String} :
    ∀ {t : AttrTable} {assoc : List Nat}, t.WF →
      (get_or_create_attrs t u names assoc).1.WF := by
  induction names with
  | nil => intro t assoc h; exact h
  | cons n rest ih =>
      intro t assoc h
      rw [gca_cons]
      exact ih (get_or_create_WF h u n)

theorem gca_assoc_mono {u : Nat} {names : List String} :
    ∀ {t : AttrTable} {assoc : List Nat} {i : Nat}, i ∈ assoc →
      i ∈ (get_or_create_attrs t u names assoc).2 := by
  induction names with
  | nil => intro t assoc i h; exact h
  | cons n rest ih =>
      intro t assoc i h
      rw [gca_cons]
      exact ih (mem_m2mAdd.mpr (Or.inl h))

theorem gca_assoc_sub {u : Nat} {names : List String} :
    ∀ {t : AttrTable} {assoc : List Nat} {i : Nat},
      i ∈ (get_or_create_attrs t u names assoc).2 →
      i ∈ assoc ∨ ∃ a ∈ (get_or_create_attrs t u names assoc).1.rows,
        a.id = i ∧ a.user = u ∧ a.name ∈ names := by
  induction names with
  | nil => intro t assoc i h; exact Or.inl h
  | cons n rest ih =>
      intro t assoc i h
      rw [gca_cons] at h ⊢
      rcases ih h with h1 | h1
      · rcases mem_m2mAdd.mp h1 with h2 | h2
        · exact Or.inl h2
        · obtain ⟨a, ha, hid, hu, hn⟩ := get_or_create_ret_owned t u n
          refine Or.inr ⟨a, gca_rows_mono ha, ?_, hu, ?_⟩
          · rw [hid, ← h2]
          · rw [hn]; exact List.mem_cons_self _ _
      · obtain ⟨a, ha, hid, hu, hn⟩ := h1
        exact Or.inr ⟨a, ha, hid, hu, List.mem_cons_of_mem _ hn⟩

theorem ownedAssoc_mono {t t' : AttrTable} {o : Nat} {s : List Nat}
    (h : ∀ a ∈ t.rows, a ∈ t'.rows) (hs : ownedAssoc t o s) :
    ownedAssoc t' o s := by
  intro i hi
  obtain ⟨a, ha, hai, hau⟩ := hs i hi
  exact ⟨a, h a ha, hai, hau⟩

theorem gca_ownedAssoc {t : AttrTable} {u : Nat} {names : List String}
    {assoc : List Nat} (h : ownedAssoc t u assoc) :
    ownedAssoc (get_or_create_attrs t u names assoc).1 u
      (get_or_create_attrs t u names assoc).2 := by
  intro i hi
  rcases gca_assoc_sub hi with h1 | h1
  · obtain ⟨a, ha, hai, hau⟩ := h i h1
    exact ⟨a, gca_rows_mono ha, hai, hau⟩
  · obtain ⟨a, ha, hid, hu, _⟩ := h1
    exact ⟨a, ha, hid, hu⟩

/-! ## Projection lemmas for the serializer operations -/

theorem applyScalarFields_user (q : Recipe) (p : UpdatePayload) :
    (applyScalarFields q p).user = q.user := rfl

theorem applyScalarFields_id (q : Recipe) (p : UpdatePayload) :
    (applyScalarFields q p).id = q.id := rfl

theorem applyScalarFields_tagIds (q : Recipe) (p : UpdatePayload) :
    (applyScalarFields q p).tagIds = q.tagIds := rfl

theorem applyScalarFields_ingredientIds (q : Recipe) (p : UpdatePayload) :
    (applyScalarFields q p).ingredientIds = q.ingredientIds := rfl

theorem rsc_recipes (db : DB) (u : Nat) (p : CreatePayload) :
    (RecipeSerializer.create db u p).1.recipes =
      db.recipes ++ [(RecipeSerializer.create db u p).2] := rfl

theorem rsc_tags (db : DB) (u : Nat) (p : CreatePayload) :
    (RecipeSerializer.create db u p).1.tags =
      (get_or_create_attrs db.tags u (p.tags.getD []) []).1 := rfl

theorem rsc_ingredients (db : DB) (u : Nat) (p : CreatePayload) :
    (RecipeSerializer.create db u p).1.ingredients =
      (get_or_create_attrs db.ingredients u (p.ingredients.getD []) []).1 := rfl

theorem rsc_result_user (db : DB) (u : Nat) (p : CreatePayload) :
    (RecipeSerializer.create db u p).2.user = u := rfl

theorem rsc_result_tagIds (db : DB) (u : Nat) (p : CreatePayload) :
    (RecipeSerializer.create db u p).2.tagIds =
      (get_or_create_attrs db.tags u (p.tags.getD []) []).2 := rfl

theorem rsc_result_ingredientIds (db : DB) (u : Nat) (p : CreatePayload) :
    (RecipeSerializer.create db u p).2.ingredientIds =
      (get_or_create_attrs db.ingredients u (p.ingredients.getD []) []).2 := rfl

theorem rsu_recipes (db : DB) (u : Nat) (inst : Recipe) (p : UpdatePayload) :
    (RecipeSerializer.update db u inst p).1.recipes =
      db.recipes.map (fun x =>
        if x.id == inst.id then (RecipeSerializer.update db u inst p).2 else x) :=
  rfl

theorem rsu_user (db : DB) (u : Nat) (inst : Recipe) (p : UpdatePayload) :
    (RecipeSerializer.update db u inst p).2.user = inst.user := rfl

theorem rsu_id (db : DB) (u : Nat) (inst : Recipe) (p : UpdatePayload) :
    (RecipeSerializer.update db u inst p).2.id = inst.id := rfl

theorem rsu_title (db : DB) (u : Nat) (inst : Recipe) (p : UpdatePayload) :
    (RecipeSerializer.update db u inst p).2.title = p.title.getD inst.title := rfl

theorem rsu_description (db : DB) (u : Nat) (inst : Recipe) (p : UpdatePayload) :
    (RecipeSerializer.update db u inst p).2.description =
      p.description.getD inst.description := rfl

theorem rsu_time_minutes (db : DB) (u : Nat) (inst : Recipe) (p : UpdatePayload) :
    (RecipeSerializer.update db u inst p).2.time_minutes =
      p.time_minutes.getD inst.time_minutes := rfl

theorem rsu_price (db : DB) (u : Nat) (inst : Recipe) (p : UpdatePayload) :
    (RecipeSerializer.update db u inst p).2.price = p.price.getD inst.price := rfl

theorem rsu_link (db : DB) (u : Nat) (inst : Recipe) (p : UpdatePayload) :
    (RecipeSerializer.update db u inst p).2.link = p.link.getD inst.link := rfl

theorem rsu_tags_none {db : DB} {u : Nat} {inst : Recipe} {p : UpdatePayload}
    (h : p.tags = none) :
    (RecipeSerializer.update db u inst p).1.tags = db.tags ∧
    (RecipeSerializer.update db u inst p).2.tagIds = inst.tagIds := by
  unfold RecipeSerializer.update
  rw [h]
  exact ⟨rfl, rfl⟩

theorem rsu_tags_some {db : DB} {u : Nat} {inst : Recipe} {p : UpdatePayload}
    {names : List String} (h : p.tags = some names) :
    (RecipeSerializer.update db u inst p).1.tags =
      (get_or_create_attrs db.tags u names []).1 ∧
    (RecipeSerializer.update db u inst p).2.tagIds =
      (get_or_create_attrs db.tags u names []).2 := by
  unfold RecipeSerializer.update
  rw [h]
  exact ⟨rfl, rfl⟩

theorem rsu_ingredients_none {db : DB} {u : Nat} {inst : Recipe}
    {p : UpdatePayload} (h : p.ingredients = none) :
    (RecipeSerializer.update db u inst p).1.ingredients = db.ingredients ∧
    (RecipeSerializer.update db u inst p).2.ingredientIds = inst.ingredientIds := by
  unfold RecipeSerializer.update
  rw [h]
  exact ⟨rfl, rfl⟩

theorem rsu_ingredients_some {db : DB} {u : Nat} {inst : Recipe}
    {p : UpdatePayload} {names : List String} (h : p.ingredients = some names) :
    (RecipeSerializer.update db u inst p).1.ingredients =
      (get_or_create_attrs db.ingredients u names []).1 ∧
    (RecipeSerializer.update db u inst p).2.ingredientIds =
      (get_or_create_attrs db.ingredients u names []).2 := by
  unfold RecipeSerializer.update
  rw [h]
  exact ⟨rfl, rfl⟩

/-- The tag table rows only grow under `RecipeSerializer.update`. -/
theorem rsu_tags_rows_mono (db : DB) (u : Nat) (inst : Recipe)
    (p : UpdatePayload) :
    ∀ a ∈ db.tags.rows, a ∈ (RecipeSerializer.update db u inst p).1.tags.rows := by
  intro a ha
  cases h : p.tags with
  | none => rw [(rsu_tags_none h).1]; exact ha
  | some names => rw [(rsu_tags_some h).1]; exact gca_rows_mono ha

/-- The ingredient table rows only grow under `RecipeSerializer.update`. -/
theorem rsu_ingredients_rows_mono (db : DB) (u : Nat) (inst : Recipe)
    (p : UpdatePayload) :
    ∀ a ∈ db.ingredients.rows,
      a ∈ (RecipeSerializer.update db u inst p).1.ingredients.rows := by
  intro a ha
  cases h : p.ingredients with
  | none => rw [(rsu_ingredients_none h).1]; exact ha
  | some names => rw [(rsu_ingredients_some h).1]; exact gca_rows_mono ha

/-! ## Preservation of the ownership invariant -/

theorem create_OwnershipInv {db : DB} {u : Nat} {p : CreatePayload}
    (h : OwnershipInv db) : OwnershipInv (RecipeSerializer.create db u p).1 := by
  intro r hr
  rw [rsc_recipes] at hr
  rw [rsc_tags, rsc_ingredients]
  rcases List.mem_append.mp hr with hr | hr
  · obtain ⟨h1, h2⟩ := h r hr
    exact ⟨ownedAssoc_mono (fun a ha => gca_rows_mono ha) h1,
           ownedAssoc_mono (fun a ha => gca_rows_mono ha) h2⟩
  · rw [List.mem_singleton.mp hr]
    rw [rsc_result_user, rsc_result_tagIds, rsc_result_ingredientIds]
    constructor
    · exact gca_ownedAssoc (fun i hi => absurd hi (List.not_mem_nil i))
    · exact gca_ownedAssoc (fun i hi => absurd hi (List.not_mem_nil i))

theorem rsu_OwnershipInv {db : DB} {u : Nat} {inst : Recipe} {p : UpdatePayload}
    (hinv : OwnershipInv db) (hmem : inst ∈ db.recipes) (huser : inst.user = u) :
    OwnershipInv (RecipeSerializer.update db u inst p).1 := by
  intro r hr
  rw [rsu_recipes] at hr
  obtain ⟨x, hx, hxr⟩ := List.mem_map.mp hr
  by_cases hid : (x.id == inst.id) = true
  · rw [if_pos hid] at hxr
    subst hxr
    rw [rsu_user, huser]
    constructor
    · cases h : p.tags with
      | none =>
          rw [(rsu_tags_none h).1, (rsu_tags_none h).2]
          rw [← huser]
          exact (hinv inst hmem).1
      | some names =>
          rw [(rsu_tags_some h).1, (rsu_tags_some h).2]
          exact gca_ownedAssoc (fun i hi => absurd hi (List.not_mem_nil i))
    · cases h : p.ingredients with
      | none =>
          rw [(rsu_ingredients_none h).1, (rsu_ingredients_none h).2]
          rw [← huser]
          exact (hinv inst hmem).2
      | some names =>
          rw [(rsu_ingredients_some h).1, (rsu_ingredients_some h).2]
          exact gca_ownedAssoc (fun i hi => absurd hi (List.not_mem_nil i))
  · rw [if_neg hid] at hxr
    subst hxr
    obtain ⟨h1, h2⟩ := hinv x hx
    exact ⟨ownedAssoc_mono (rsu_tags_rows_mono db u inst p) h1,
           ownedAssoc_mono (rsu_ingredients_rows_mono db u inst p) h2⟩

theorem get_object_spec {db : DB} {u rid : Nat} {r : Recipe}
    (h : RecipeViewSet.get_object db u rid = some r) :
    r ∈ db.recipes ∧ r.id = rid ∧ r.user = u := by
  have hm := List.mem_of_find?_eq_some h
  have hp := List.find?_some h
  simp only [Bool.and_eq_true, beq_iff_eq] at hp
  exact ⟨hm, hp.1, hp.2⟩

theorem applyOp_OwnershipInv {db : DB} {op : Op} (h : OwnershipInv db) :
    OwnershipInv (applyOp db op) := by
  cases op with
  | createRecipe u p => exact create_OwnershipInv h
  | updateRecipe u rid p =>
      show OwnershipInv (match RecipeViewSet.update db u rid p with
        | .ok dp => dp.1
        | .error _ => db)
      unfold RecipeViewSet.update
      cases hg : RecipeViewSet.get_object db u rid with
      | none => simp only [hg]; exact h
      | some r =>
          simp only [hg]
          obtain ⟨hmem, _, huser⟩ := get_object_spec hg
          exact rsu_OwnershipInv h hmem huser

theorem applyOps_OwnershipInv :
    ∀ (ops : List Op) (db : DB), OwnershipInv db →
      OwnershipInv (applyOps db ops) := by
  intro ops
  induction ops with
  | nil => intro db h; exact h
  | cons op rest ih =>
      intro db h
      exact ih (applyOp db op) (applyOp_OwnershipInv h)

theorem emptyDB_OwnershipInv : OwnershipInv emptyDB := by
  intro r hr
  exact absurd hr (List.not_mem_nil r)

theorem WF_id_inj {t : AttrTable} (h : t.WF) {a b : Attr} (ha : a ∈ t.rows)
    (hb : b ∈ t.rows) (hid : a.id = b.id) : a = b :=
  List.inj_on_of_nodup_map h.1 ha hb hid

/-! ## Concrete fixtures used by the witnesses -/

/-- A creation payload with two tags and one ingredient. -/
def exCreateP : CreatePayload :=
  ⟨"curry", 30, 599, none, none, some ["Indian", "Dinner"], some ["rice"]⟩

/-- An update payload replacing the tag list only. -/
def exUpdateTagsP : UpdatePayload :=
  ⟨none, none, none, none, none, none, some ["Breakfast"], none⟩

/-- A tag table holding one row owned by account 2. -/
def exOtherTable : AttrTable := ⟨[⟨1, 2, "Indian"⟩], 2⟩

/-- A stored recipe owned by account 7 with one tag and one ingredient. -/
def exRecipe : Recipe := ⟨1, 7, "a", "d", 5, 100, "l", [4], [9]⟩

/-- A store holding `exRecipe` and its tag and ingredient rows. -/
def exDB : DB := ⟨[exRecipe], 2, ⟨[⟨4, 7, "t"⟩], 5⟩, ⟨[⟨9, 7, "i"⟩], 10⟩⟩

/-- An update payload carrying only a new title. -/
def exTitleP : UpdatePayload := ⟨some "b", none, none, none, none, none, none, none⟩

/-- The recipe `exRecipe` after retitling. -/
def exRecipeB : Recipe := ⟨1, 7, "b", "d", 5, 100, "l", [4], [9]⟩

/-- The store `exDB` after retitling its recipe. -/
def exDBB : DB := ⟨[exRecipeB], 2, ⟨[⟨4, 7, "t"⟩], 5⟩, ⟨[⟨9, 7, "i"⟩], 10⟩⟩

/-! ## Claim theorems -/

/-- Claim C2: every state reachable by any sequence of recipe create and
update operations keeps every recipe's tag and ingredient associations
pointing at rows owned by the recipe's own account; and `get_or_create`
never resolves a name to another owner's row — when the caller has no row
of that name, a fresh row owned by the caller is created even if another
owner has one. -/
theorem claim_C2 :
    (∀ ops : List Op, OwnershipInv (applyOps emptyDB ops)) ∧
    (∀ (t : AttrTable) (caller : Nat) (nm : String), t.WF →
      (∀ a ∈ t.rows, a.user ≠ caller → (t.get_or_create caller nm).2 ≠ a.id) ∧
      (t.find_for caller nm = none →
        (t.get_or_create caller nm).1.rows =
          t.rows ++ [{ id := t.nextId, user := caller, name := nm }] ∧
        (t.get_or_create caller nm).2 = t.nextId)) := by
  constructor
  · intro ops
    exact applyOps_OwnershipInv ops emptyDB emptyDB_OwnershipInv
  · intro t caller nm hwf
    constructor
    · intro a ha hau
      cases hf : t.find_for caller nm with
      | some b =>
          rw [get_or_create_of_found hf]
          obtain ⟨hbm, hbu, _⟩ := find_for_some hf
          intro hba
          have hab : a = b := WF_id_inj hwf ha hbm hba.symm
          rw [hab] at hau
          exact hau hbu
      | none =>
          rw [get_or_create_of_not_found hf]
          exact fun hc => absurd (hc ▸ hwf.2 a ha) (Nat.lt_irrefl _)
    · intro hf
      rw [get_or_create_of_not_found hf]
      exact ⟨rfl, rfl⟩

theorem claim_C2_witness :
    OwnershipInv (applyOps emptyDB
      [Op.createRecipe 7 exCreateP, Op.updateRecipe 7 1 exUpdateTagsP]) ∧
    ((∀ a ∈ exOtherTable.rows, a.user ≠ 7 →
        (exOtherTable.get_or_create 7 "Indian").2 ≠ a.id) ∧
     (exOtherTable.find_for 7 "Indian" = none →
       (exOtherTable.get_or_create 7 "Indian").1.rows =
         exOtherTable.rows ++
           [{ id := exOtherTable.nextId, user := 7, name := "Indian" }] ∧
       (exOtherTable.get_or_create 7 "Indian").2 = exOtherTable.nextId)) :=
  ⟨claim_C2.1 _, claim_C2.2 exOtherTable 7 "Indian" (by decide)⟩

/-- Claim C4: whatever owner value an update payload carries, the request is
processed the same way (the attempt is silently ignored, not rejected), and
the recipe's owner after a successful update equals its owner before. -/
theorem claim_C4 (db : DB) (u rid : Nat) (p : UpdatePayload) (db' : DB)
    (r' : Recipe) (h : RecipeViewSet.update db u rid p = .ok (db', r')) :
    (∀ v : Option Nat,
      RecipeViewSet.update db u rid { p with user := v } = .ok (db', r')) ∧
    ∃ r, RecipeViewSet.get_object db u rid = some r ∧ r'.user = r.user := by
  constructor
  · intro v
    exact h
  · unfold RecipeViewSet.update at h
    cases hg : RecipeViewSet.get_object db u rid with
    | none => rw [hg] at h; exact absurd h (by simp)
    | some r =>
        rw [hg] at h
        injection h with h'
        have h2 : (RecipeSerializer.update db u r p).2 = r' :=
          congrArg Prod.snd h'
        refine ⟨r, rfl, ?_⟩
        rw [← h2, rsu_user]

theorem claim_C4_witness :
    (∀ v : Option Nat,
      RecipeViewSet.update exDB 7 1 { exTitleP with user := v } =
        .ok (exDBB, exRecipeB)) ∧
    ∃ r, RecipeViewSet.get_object exDB 7 1 = some r ∧
      exRecipeB.user = r.user :=
  claim_C4 exDB 7 1 exTitleP exDBB exRecipeB rfl

/-- Claim C5: a partial update overwrites exactly the scalar fields present
in the payload and leaves every absent field (scalar or collection) at its
previous value. -/
theorem claim_C5 (db : DB) (u rid : Nat) (p : UpdatePayload) (db' : DB)
    (r' : Recipe) (h : RecipeViewSet.update db u rid p = .ok (db', r')) :
    ∃ r, RecipeViewSet.get_object db u rid = some r ∧
      (∀ v, p.title = some v → r'.title = v) ∧
      (p.title = none → r'.title = r.title) ∧
      (∀ v, p.link = some v → r'.link = v) ∧
      (p.link = none → r'.link = r.link) ∧
      (∀ v, p.price = some v → r'.price = v) ∧
      (p.price = none → r'.price = r.price) ∧
      (∀ v, p.time_minutes = some v → r'.time_minutes = v) ∧
      (p.time_minutes = none → r'.time_minutes = r.time_minutes) ∧
      (∀ v, p.description = some v → r'.description = v) ∧
      (p.description = none → r'.description = r.description) ∧
      (p.tags = none → r'.tagIds = r.tagIds) ∧
      (p.ingredients = none → r'.ingredientIds = r.ingredientIds) := by
  unfold RecipeViewSet.update at h
  cases hg : RecipeViewSet.get_object db u rid with
  | none => rw [hg] at h; exact absurd h (by simp)
  | some r =>
      rw [hg] at h
      injection h with h'
      have hr' : (RecipeSerializer.update db u r p).2 = r' :=
        congrArg Prod.snd h'
      refine ⟨r, rfl, ?_, ?_, ?_, ?_, ?_, ?_, ?_, ?_, ?_, ?_, ?_, ?_⟩
      · intro v hv; rw [← hr', rsu_title, hv]; rfl
      · intro hv; rw [← hr', rsu_title, hv]; rfl
      · intro v hv; rw [← hr', rsu_link, hv]; rfl
      · intro hv; rw [← hr', rsu_link, hv]; rfl
      · intro v hv; rw [← hr', rsu_price, hv]; rfl
      · intro hv; rw [← hr', rsu_price, hv]; rfl
      · intro v hv; rw [← hr', rsu_time_minutes, hv]; rfl
      · intro hv; rw [← hr', rsu_time_minutes, hv]; rfl
      · intro v hv; rw [← hr', rsu_description, hv]; rfl
      · intro hv; rw [← hr', rsu_description, hv]; rfl
      · intro hv; rw [← hr', (rsu_tags_none hv).2]
      · intro hv; rw [← hr', (rsu_ingredients_none hv).2]

theorem claim_C5_witness :
    ∃ r, RecipeViewSet.get_object exDB 7 1 = some r ∧
      (∀ v, exTitleP.title = some v → exRecipeB.title = v) ∧
      (exTitleP.title = none → exRecipeB.title = r.title) ∧
      (∀ v, exTitleP.link = some v → exRecipeB.link = v) ∧
      (exTitleP.link = none → exRecipeB.link = r.link) ∧
      (∀ v, exTitleP.price = some v → exRecipeB.price = v) ∧
      (exTitleP.price = none → exRecipeB.price = r.price) ∧
      (∀ v, exTitleP.time_minutes = some v → exRecipeB.time_minutes = v) ∧
      (exTitleP.time_minutes = none → exRecipeB.time_minutes = r.time_minutes) ∧
      (∀ v, exTitleP.description = some v → exRecipeB.description = v) ∧
      (exTitleP.description = none → exRecipeB.description = r.description) ∧
      (exTitleP.tags = none → exRecipeB.tagIds = r.tagIds) ∧
      (exTitleP.ingredients = none → exRecipeB.ingredientIds = r.ingredientIds) :=
  claim_C5 exDB 7 1 exTitleP exDBB exRecipeB rfl

/-- Claim C1: on update, a present `tags` key (empty list included) fully
clears the recipe's tag association set and rebuilds it by reconciling the
given names, deleting no underlying tag row; an absent key leaves the tag
set — and the tag table — exactly as they were.  Independently the same for
`ingredients`. -/
theorem claim_C1 (db : DB) (u rid : Nat) (p : UpdatePayload) (db' : DB)
    (r' : Recipe) (h : RecipeViewSet.update db u rid p = .ok (db', r')) :
    (∀ names, p.tags = some names →
      r'.tagIds = (get_or_create_attrs db.tags u names []).2 ∧
      ∀ a ∈ db.tags.rows, a ∈ db'.tags.rows) ∧
    (p.tags = some [] → r'.tagIds = []) ∧
    (p.tags = none → ∃ r, RecipeViewSet.get_object db u rid = some r ∧
      r'.tagIds = r.tagIds ∧ db'.tags = db.tags) ∧
    (∀ names, p.ingredients = some names →
      r'.ingredientIds = (get_or_create_attrs db.ingredients u names []).2 ∧
      ∀ a ∈ db.ingredients.rows, a ∈ db'.ingredients.rows) ∧
    (p.ingredients = some [] → r'.ingredientIds = []) ∧
    (p.ingredients = none → ∃ r, RecipeViewSet.get_object db u rid = some r ∧
      r'.ingredientIds = r.ingredientIds ∧ db'.ingredients = db.ingredients) := by
  unfold RecipeViewSet.update at h
  cases hg : RecipeViewSet.get_object db u rid with
  | none => rw [hg] at h; exact absurd h (by simp)
  | some r =>
      rw [hg] at h
      injection h with h'
      have hdb : (RecipeSerializer.update db u r p).1 = db' :=
        congrArg Prod.fst h'
      have hr : (RecipeSerializer.update db u r p).2 = r' :=
        congrArg Prod.snd h'
      refine ⟨?_, ?_, ?_, ?_, ?_, ?_⟩
      · intro names hn
        refine ⟨by rw [← hr, (rsu_tags_some hn).2], ?_⟩
        intro a ha
        rw [← hdb]
        exact rsu_tags_rows_mono db u r p a ha
      · intro hn
        rw [← hr, (rsu_tags_some hn).2]
        rfl
      · intro hn
        exact ⟨r, rfl, by rw [← hr, (rsu_tags_none hn).2],
          by rw [← hdb, (rsu_tags_none hn).1]⟩
      · intro names hn
        refine ⟨by rw [← hr, (rsu_ingredients_some hn).2], ?_⟩
        intro a ha
        rw [← hdb]
        exact rsu_ingredients_rows_mono db u r p a ha
      · intro hn
        rw [← hr, (rsu_ingredients_some hn).2]
        rfl
      · intro hn
        exact ⟨r, rfl, by rw [← hr, (rsu_ingredients_none hn).2],
          by rw [← hdb, (rsu_ingredients_none hn).1]⟩

/-- The recipe `exRecipe` after its tag set is replaced by `["Breakfast"]`. -/
def exRecipeT : Recipe := ⟨1, 7, "a", "d", 5, 100, "l", [5], [9]⟩

/-- The store `exDB` after that tag-set replacement (fresh tag id 5). -/
def exDBT : DB :=
  ⟨[exRecipeT], 2, ⟨[⟨4, 7, "t"⟩, ⟨5, 7, "Breakfast"⟩], 6⟩, ⟨[⟨9, 7, "i"⟩], 10⟩⟩

theorem claim_C1_witness :
    (∀ names, exUpdateTagsP.tags = some names →
      exRecipeT.tagIds = (get_or_create_attrs exDB.tags 7 names []).2 ∧
      ∀ a ∈ exDB.tags.rows, a ∈ exDBT.tags.rows) ∧
    (exUpdateTagsP.tags = some [] → exRecipeT.tagIds = []) ∧
    (exUpdateTagsP.tags = none →
      ∃ r, RecipeViewSet.get_object exDB 7 1 = some r ∧
        exRecipeT.tagIds = r.tagIds ∧ exDBT.tags = exDB.tags) ∧
    (∀ names, exUpdateTagsP.ingredients = some names →
      exRecipeT.ingredientIds = (get_or_create_attrs exDB.ingredients 7 names []).2 ∧
      ∀ a ∈ exDB.ingredients.rows, a ∈ exDBT.ingredients.rows) ∧
    (exUpdateTagsP.ingredients = some [] → exRecipeT.ingredientIds = []) ∧
    (exUpdateTagsP.ingredients = none →
      ∃ r, RecipeViewSet.get_object exDB 7 1 = some r ∧
        exRecipeT.ingredientIds = r.ingredientIds ∧
        exDBT.ingredients = exDB.ingredients) :=
  claim_C1 exDB 7 1 exUpdateTagsP exDBT exRecipeT rfl

/-- Claim C3: creating a recipe with tag names `[n1, n2]` where `n1` already
exists for the owner and `n2` does not: the names are resolved in input
order, exactly one new tag row (for `n2`) is appended, the recipe ends with
exactly the two associations `[existing id, fresh id]`, and the pre-existing
row itself is still present (same id, not a copy). -/
theorem claim_C3 (db : DB) (u : Nat) (p : CreatePayload) (n1 n2 : String)
    (a : Attr) (hwf : db.tags.WF) (hp : p.tags = some [n1, n2])
    (h1 : db.tags.find_for u n1 = some a)
    (h2 : db.tags.find_for u n2 = none) :
    (RecipeSerializer.create db u p).1.tags.rows =
      db.tags.rows ++ [{ id := db.tags.nextId, user := u, name := n2 }] ∧
    (RecipeSerializer.create db u p).1.tags.rows.length =
      db.tags.rows.length + 1 ∧
    (RecipeSerializer.create db u p).2.tagIds = [a.id, db.tags.nextId] ∧
    a ∈ (RecipeSerializer.create db u p).1.tags.rows := by
  have hmem1 := (find_for_some h1).1
  have hlt : a.id < db.tags.nextId := hwf.2 a hmem1
  have hne : ¬(db.tags.nextId = a.id) := fun hc => absurd (hc ▸ hlt) (Nat.lt_irrefl _)
  have hfull : get_or_create_attrs db.tags u [n1, n2] [] =
      ({ rows := db.tags.rows ++ [{ id := db.tags.nextId, user := u, name := n2 }],
         nextId := db.tags.nextId + 1 }, [a.id, db.tags.nextId]) := by
    rw [gca_cons, get_or_create_of_found h1]
    rw [show m2mAdd [] a.id = [a.id] from by simp [m2mAdd]]
    show get_or_create_attrs db.tags u [n2] [a.id] = _
    rw [gca_cons, get_or_create_of_not_found h2]
    rw [show m2mAdd [a.id] db.tags.nextId = [a.id, db.tags.nextId] from by
      simp [m2mAdd, hne]]
    rfl
  refine ⟨?_, ?_, ?_, ?_⟩
  · rw [rsc_tags, hp]
    simp only [Option.getD_some]
    rw [hfull]
  · rw [rsc_tags, hp]
    simp only [Option.getD_some]
    rw [hfull]
    exact List.length_append _ _
  · rw [rsc_result_tagIds, hp]
    simp only [Option.getD_some]
    rw [hfull]
  · rw [rsc_tags, hp]
    simp only [Option.getD_some]
    rw [hfull]
    exact List.mem_append_left _ hmem1

/-- A creation payload whose tag list reuses "t" and introduces "Breakfast". -/
def exCreateP2 : CreatePayload :=
  ⟨"x", 1, 100, none, none, some ["t", "Breakfast"], none⟩

theorem claim_C3_witness :
    (RecipeSerializer.create exDB 7 exCreateP2).1.tags.rows =
      exDB.tags.rows ++ [{ id := exDB.tags.nextId, user := 7, name := "Breakfast" }] ∧
    (RecipeSerializer.create exDB 7 exCreateP2).1.tags.rows.length =
      exDB.tags.rows.length + 1 ∧
    (RecipeSerializer.create exDB 7 exCreateP2).2.tagIds =
      [(⟨4, 7, "t"⟩ : Attr).id, exDB.tags.nextId] ∧
    (⟨4, 7, "t"⟩ : Attr) ∈ (RecipeSerializer.create exDB 7 exCreateP2).1.tags.rows :=
  claim_C3 exDB 7 exCreateP2 "t" "Breakfast" ⟨4, 7, "t"⟩ (by decide) (by decide)
    (by decide) (by decide)

/-- Claim C6: for any recipe, tag or ingredient id that either does not
exist or is owned by a different account, retrieve/update/delete answer the
same `notFound`; no operation ever answers `forbidden`, so another user's
record is indistinguishable from a nonexistent one. -/
theorem claim_C6 :
    (∀ (db : DB) (u rid : Nat), (∀ r ∈ db.recipes, r.id = rid → r.user ≠ u) →
      RecipeViewSet.retrieve db u rid = .error .notFound ∧
      (∀ p, RecipeViewSet.update db u rid p = .error .notFound) ∧
      RecipeViewSet.destroy db u rid = .error .notFound) ∧
    (∀ (t : AttrTable) (u aid : Nat), (∀ a ∈ t.rows, a.id = aid → a.user ≠ u) →
      (∀ nm, BaseRecipeAttrViewSet.update_name t u aid nm = .error .notFound) ∧
      BaseRecipeAttrViewSet.destroy t u aid = .error .notFound) ∧
    (∀ (db : DB) (u rid : Nat),
      RecipeViewSet.retrieve db u rid ≠ .error .forbidden ∧
      (∀ p, RecipeViewSet.update db u rid p ≠ .error .forbidden) ∧
      RecipeViewSet.destroy db u rid ≠ .error .forbidden) ∧
    (∀ (t : AttrTable) (u aid : Nat),
      (∀ nm, BaseRecipeAttrViewSet.update_name t u aid nm ≠ .error .forbidden) ∧
      BaseRecipeAttrViewSet.destroy t u aid ≠ .error .forbidden) := by
  refine ⟨?_, ?_, ?_, ?_⟩
  · intro db u rid hyp
    have hnone : RecipeViewSet.get_object db u rid = none := by
      apply List.find?_eq_none.mpr
      intro r hr
      simp only [Bool.and_eq_true, beq_iff_eq, not_and]
      intro h1
      exact hyp r hr h1
    refine ⟨?_, ?_, ?_⟩
    · unfold RecipeViewSet.retrieve; rw [hnone]
    · intro p; unfold RecipeViewSet.update; rw [hnone]
    · unfold RecipeViewSet.destroy; rw [hnone]
  · intro t u aid hyp
    have hnone : BaseRecipeAttrViewSet.get_object t u aid = none := by
      apply List.find?_eq_none.mpr
      intro a ha
      simp only [Bool.and_eq_true, beq_iff_eq, not_and]
      intro h1
      exact hyp a ha h1
    refine ⟨?_, ?_⟩
    · intro nm; unfold BaseRecipeAttrViewSet.update_name; rw [hnone]
    · unfold BaseRecipeAttrViewSet.destroy; rw [hnone]
  · intro db u rid
    refine ⟨?_, ?_, ?_⟩
    · unfold RecipeViewSet.retrieve
      cases hg : RecipeViewSet.get_object db u rid <;> simp
    · intro p
      unfold RecipeViewSet.update
      cases hg : RecipeViewSet.get_object db u rid <;> simp
    · unfold RecipeViewSet.destroy
      cases hg : RecipeViewSet.get_object db u rid <;> simp
  · intro t u aid
    refine ⟨?_, ?_⟩
    · intro nm
      unfold BaseRecipeAttrViewSet.update_name
      cases hg : BaseRecipeAttrViewSet.get_object t u aid <;> simp
    · unfold BaseRecipeAttrViewSet.destroy
      cases hg : BaseRecipeAttrViewSet.get_object t u aid <;> simp

theorem claim_C6_witness :
    (RecipeViewSet.retrieve exDB 3 1 = .error .notFound ∧
     (∀ p, RecipeViewSet.update exDB 3 1 p = .error .notFound) ∧
     RecipeViewSet.destroy exDB 3 1 = .error .notFound) ∧
    ((∀ nm, BaseRecipeAttrViewSet.update_name exDB.tags 3 4 nm = .error .notFound) ∧
     BaseRecipeAttrViewSet.destroy exDB.tags 3 4 = .error .notFound) ∧
    (RecipeViewSet.retrieve exDB 7 1 ≠ .error .forbidden ∧
     (∀ p, RecipeViewSet.update exDB 7 1 p ≠ .error .forbidden) ∧
     RecipeViewSet.destroy exDB 7 1 ≠ .error .forbidden) ∧
    ((∀ nm, BaseRecipeAttrViewSet.update_name exDB.tags 7 4 nm ≠ .error .forbidden) ∧
     BaseRecipeAttrViewSet.destroy exDB.tags 7 4 ≠ .error .forbidden) :=
  ⟨claim_C6.1 exDB 3 1 (by decide), claim_C6.2.1 exDB.tags 3 4 (by decide),
   claim_C6.2.2.1 exDB 7 1, claim_C6.2.2.2 exDB.tags 7 4⟩

/-- Claim C9: every recipe listing is ordered by descending id, and every
tag or ingredient listing is ordered by descending name — for all stores,
callers and filter parameters. -/
theorem claim_C9 :
    (∀ (db : DB) (u : Nat) (tp ip : Option (List Nat)),
      (RecipeViewSet.get_queryset db u tp ip).Sorted recipeGE) ∧
    (∀ (db : DB) (u : Nat) (ap : Option Nat),
      (TagViewSet.list db u ap).Sorted attrGE ∧
      (IngredientViewSet.list db u ap).Sorted attrGE) := by
  refine ⟨fun db u tp ip => ?_, fun db u ap => ⟨?_, ?_⟩⟩
  · exact List.sorted_insertionSort recipeGE _
  · exact List.sorted_insertionSort attrGE _
  · exact List.sorted_insertionSort attrGE _

/-- Claim C10: a user registration or user update whose password is shorter
than 5 characters is rejected with no account created or modified; and the
serialized user representation exposes exactly the non-write-only fields,
so the password never appears in output. -/
theorem claim_C10 (db : UserDB) (p : UserPayload) (pw : String)
    (hpw : p.password = some pw) (hshort : pw.length < 5) :
    UserSerializer.create db p = (db, none) ∧
    (∀ uid, UserSerializer.update db uid p = (db, none)) ∧
    (∀ u : User,
      (UserSerializer.to_representation u).map Prod.fst = ["email", "name"] ∧
      "password" ∉ (UserSerializer.to_representation u).map Prod.fst) := by
  have hval : UserSerializer.run_validation p = false := by
    unfold UserSerializer.run_validation
    rw [hpw]
    simp only [decide_eq_false_iff_not, UserSerializer.password_min_length]
    omega
  refine ⟨?_, ?_, ?_⟩
  · cases he : p.email <;> cases hn : p.name <;>
      simp [UserSerializer.create, he, hn, hpw, hval]
  · intro uid
    simp [UserSerializer.update, hval]
  · intro u
    refine ⟨rfl, ?_⟩
    rw [show (UserSerializer.to_representation u).map Prod.fst =
      ["email", "name"] from rfl]
    decide

/-- A registration payload whose password is too short. -/
def exUserP : UserPayload := ⟨some "e@x", some "abc", some "nm"⟩

/-- An empty user table. -/
def exUserDB : UserDB := ⟨[], 1⟩

theorem claim_C10_witness :
    UserSerializer.create exUserDB exUserP = (exUserDB, none) ∧
    (∀ uid, UserSerializer.update exUserDB uid exUserP = (exUserDB, none)) ∧
    (∀ u : User,
      (UserSerializer.to_representation u).map Prod.fst = ["email", "name"] ∧
      "password" ∉ (UserSerializer.to_representation u).map Prod.fst) :=
  claim_C10 exUserDB exUserP "abc" rfl (by decide)

/-! ## Membership characterisation of the list endpoints -/

theorem mem_recipe_list_tags {db : DB} {u : Nat} {tids : List Nat}
    {r : Recipe} :
    r ∈ RecipeViewSet.get_queryset db u (some tids) none ↔
      r ∈ db.recipes ∧ r.user = u ∧ ∃ i ∈ r.tagIds, i ∈ tids := by
  simp only [RecipeViewSet.get_queryset, List.mem_insertionSort,
    List.mem_filter, List.any_eq_true, List.elem_iff, beq_iff_eq]
  tauto

theorem mem_recipe_list_ingredients {db : DB} {u : Nat} {iids : List Nat}
    {r : Recipe} :
    r ∈ RecipeViewSet.get_queryset db u none (some iids) ↔
      r ∈ db.recipes ∧ r.user = u ∧ ∃ i ∈ r.ingredientIds, i ∈ iids := by
  simp only [RecipeViewSet.get_queryset, List.mem_insertionSort,
    List.mem_filter, List.any_eq_true, List.elem_iff, beq_iff_eq]
  tauto

theorem recipe_list_nodup {db : DB}
    (h : (db.recipes.map (fun r => r.id)).Nodup) (u : Nat)
    (tp ip : Option (List Nat)) :
    (RecipeViewSet.get_queryset db u tp ip).Nodup := by
  have h0 : db.recipes.Nodup := h.of_map
  unfold RecipeViewSet.get_queryset
  cases tp with
  | none =>
      cases ip with
      | none =>
          exact ((List.perm_insertionSort _ _).nodup_iff).mpr (h0.filter _)
      | some iids =>
          exact ((List.perm_insertionSort _ _).nodup_iff).mpr
            ((h0.filter _).filter _)
  | some tids =>
      cases ip with
      | none =>
          exact ((List.perm_insertionSort _ _).nodup_iff).mpr
            ((h0.filter _).filter _)
      | some iids =>
          exact ((List.perm_insertionSort _ _).nodup_iff).mpr
            (((h0.filter _).filter _).filter _)

theorem mem_attr_queryset {t : AttrTable} {refs : Recipe → List Nat}
    {recs : List Recipe} {u : Nat} {ap : Option Nat} {a : Attr} :
    a ∈ BaseRecipeAttrViewSet.get_queryset t refs recs u ap ↔
      a ∈ t.rows ∧ a.user = u ∧
      (ap.getD 0 ≠ 0 → ∃ r ∈ recs, a.id ∈ refs r) := by
  unfold BaseRecipeAttrViewSet.get_queryset
  by_cases h : ap.getD 0 = 0
  · simp only [h, List.mem_insertionSort, List.mem_filter, beq_iff_eq,
      bne_self_eq_false, if_neg Bool.false_ne_true, ne_eq, not_true_eq_false,
      false_implies, and_true]
  · have hb : (ap.getD 0 != 0) = true := by
      simp [bne_iff_ne, h]
    simp only [hb, if_pos, List.mem_insertionSort, List.mem_filter,
      List.any_eq_true, List.elem_iff, beq_iff_eq, ne_eq, h,
      not_false_eq_true, true_implies]
    tauto

/-- Claim C8: recipe listing with a tag (resp. ingredient) id-list filter
returns exactly the caller's recipes linked to at least one listed id, each
at most once; tag/ingredient listing with `assigned_only=1` returns exactly
the caller's rows referenced by at least one recipe, while `assigned_only=0`
or an absent parameter applies no such restriction. -/
theorem claim_C8 (db : DB) (u : Nat) :
    (∀ (tids : List Nat) (r : Recipe),
      r ∈ RecipeViewSet.get_queryset db u (some tids) none ↔
        r ∈ db.recipes ∧ r.user = u ∧ ∃ i ∈ r.tagIds, i ∈ tids) ∧
    (∀ (iids : List Nat) (r : Recipe),
      r ∈ RecipeViewSet.get_queryset db u none (some iids) ↔
        r ∈ db.recipes ∧ r.user = u ∧ ∃ i ∈ r.ingredientIds, i ∈ iids) ∧
    ((db.recipes.map (fun r => r.id)).Nodup →
      ∀ tp ip, (RecipeViewSet.get_queryset db u tp ip).Nodup) ∧
    (∀ a, a ∈ TagViewSet.list db u (some 1) ↔
      a ∈ db.tags.rows ∧ a.user = u ∧ ∃ r ∈ db.recipes, a.id ∈ r.tagIds) ∧
    (∀ a, a ∈ IngredientViewSet.list db u (some 1) ↔
      a ∈ db.ingredients.rows ∧ a.user = u ∧
        ∃ r ∈ db.recipes, a.id ∈ r.ingredientIds) ∧
    (∀ ap, (ap = none ∨ ap = some 0) →
      (∀ a, a ∈ TagViewSet.list db u ap ↔ a ∈ db.tags.rows ∧ a.user = u) ∧
      (∀ a, a ∈ IngredientViewSet.list db u ap ↔
        a ∈ db.ingredients.rows ∧ a.user = u)) := by
  refine ⟨?_, ?_, ?_, ?_, ?_, ?_⟩
  · intro tids r
    exact mem_recipe_list_tags
  · intro iids r
    exact mem_recipe_list_ingredients
  · intro h tp ip
    exact recipe_list_nodup h u tp ip
  · intro a
    unfold TagViewSet.list
    rw [mem_attr_queryset]
    simp
  · intro a
    unfold IngredientViewSet.list
    rw [mem_attr_queryset]
    simp
  · rintro ap (rfl | rfl) <;>
      exact ⟨fun a => by unfold TagViewSet.list; rw [mem_attr_queryset]; simp,
             fun a => by unfold IngredientViewSet.list; rw [mem_attr_queryset]; simp⟩

theorem claim_C8_witness :
    (∀ (tids : List Nat) (r : Recipe),
      r ∈ RecipeViewSet.get_queryset exDB 7 (some tids) none ↔
        r ∈ exDB.recipes ∧ r.user = 7 ∧ ∃ i ∈ r.tagIds, i ∈ tids) ∧
    (∀ (iids : List Nat) (r : Recipe),
      r ∈ RecipeViewSet.get_queryset exDB 7 none (some iids) ↔
        r ∈ exDB.recipes ∧ r.user = 7 ∧ ∃ i ∈ r.ingredientIds, i ∈ iids) ∧
    (∀ tp ip, (RecipeViewSet.get_queryset exDB 7 tp ip).Nodup) ∧
    (∀ a, a ∈ TagViewSet.list exDB 7 (some 1) ↔
      a ∈ exDB.tags.rows ∧ a.user = 7 ∧ ∃ r ∈ exDB.recipes, a.id ∈ r.tagIds) ∧
    (∀ a, a ∈ IngredientViewSet.list exDB 7 (some 1) ↔
      a ∈ exDB.ingredients.rows ∧ a.user = 7 ∧
        ∃ r ∈ exDB.recipes, a.id ∈ r.ingredientIds) ∧
    ((∀ a, a ∈ TagViewSet.list exDB 7 none ↔
        a ∈ exDB.tags.rows ∧ a.user = 7) ∧
     (∀ a, a ∈ IngredientViewSet.list exDB 7 none ↔
        a ∈ exDB.ingredients.rows ∧ a.user = 7)) :=
  ⟨(claim_C8 exDB 7).1, (claim_C8 exDB 7).2.1,
   (claim_C8 exDB 7).2.2.1 (by decide), (claim_C8 exDB 7).2.2.2.1,
   (claim_C8 exDB 7).2.2.2.2.1, (claim_C8 exDB 7).2.2.2.2.2 none (Or.inl rfl)⟩

/-! ## Permutation invariance of the reconciled association set -/

theorem isSome_find?_eq_any (l : List Attr) (p : Attr → Bool) :
    (l.find? p).isSome = l.any p := by
  induction l with
  | nil => rfl
  | cons a l ih =>
      rw [List.find?_cons, List.any_cons]
      cases h : p a
      · simp [h, ih]
      · simp [h]

/-- Presence of `i` among the ids a reconciliation of `L` can resolve via an
existing row of `t`. -/
def resolvesTo (t : AttrTable) (u : Nat) (L : List String) (i : Nat) : Prop :=
  ∃ n ∈ L, ∃ a, t.find_for u n = some a ∧ a.id = i

theorem resolvesTo_cons {t : AttrTable} {u : Nat} {n : String}
    {rest : List String} {i : Nat} :
    resolvesTo t u (n :: rest) i ↔
      (∃ a, t.find_for u n = some a ∧ a.id = i) ∨ resolvesTo t u rest i := by
  unfold resolvesTo
  constructor
  · rintro ⟨n', hn', b, hb, hbi⟩
    rcases List.mem_cons.mp hn' with rfl | hn'
    · exact Or.inl ⟨b, hb, hbi⟩
    · exact Or.inr ⟨n', hn', b, hb, hbi⟩
  · rintro (⟨b, hb, hbi⟩ | ⟨n', hn', b, hb, hbi⟩)
    · exact ⟨n, List.mem_cons_self _ _, b, hb, hbi⟩
    · exact ⟨n', List.mem_cons_of_mem _ hn', b, hb, hbi⟩

theorem find_for_extend {t : AttrTable} {u : Nat} {n : String}
    (h : t.find_for u n = none) (n' : String) :
    AttrTable.find_for ⟨t.rows ++ [⟨t.nextId, u, n⟩], t.nextId + 1⟩ u n' =
      if n' = n then some ⟨t.nextId, u, n⟩ else t.find_for u n' := by
  unfold AttrTable.find_for at h ⊢
  rw [List.find?_append]
  by_cases hn : n' = n
  · subst hn
    rw [h, if_pos rfl]
    simp [List.find?]
  · rw [if_neg hn]
    cases hf : t.rows.find? (fun a => a.user == u && a.name == n') with
    | some b => rfl
    | none =>
        have hne : ¬(n == n') = true := by
          simp only [beq_iff_eq]
          exact fun hc => hn hc.symm
        simp [List.find?, hne]

theorem resolvesTo_extend {t : AttrTable} {u : Nat} {n : String}
    (hf : t.find_for u n = none) (rest : List String) (i : Nat) :
    resolvesTo ⟨t.rows ++ [⟨t.nextId, u, n⟩], t.nextId + 1⟩ u rest i ↔
      resolvesTo t u rest i ∨ (n ∈ rest ∧ i = t.nextId) := by
  unfold resolvesTo
  constructor
  · rintro ⟨n', hn', b, hb, hbi⟩
    rw [find_for_extend hf n'] at hb
    by_cases h : n' = n
    · rw [if_pos h] at hb
      injection hb with hb'
      refine Or.inr ⟨h ▸ hn', ?_⟩
      rw [← hbi, ← hb']
    · rw [if_neg h] at hb
      exact Or.inl ⟨n', hn', b, hb, hbi⟩
  · rintro (⟨n', hn', b, hb, hbi⟩ | ⟨hn, hi⟩)
    · refine ⟨n', hn', b, ?_, hbi⟩
      rw [find_for_extend hf n']
      by_cases h : n' = n
      · subst h
        rw [hf] at hb
        cases hb
      · rw [if_neg h]
        exact hb
    · refine ⟨n, hn, ⟨t.nextId, u, n⟩, ?_, hi.symm⟩
      rw [find_for_extend hf n, if_pos rfl]

/-- Two tables are presence-equivalent for `u` when they have the same
auto-increment counter and make the same names resolvable for `u`.  The
evolution of the table under reconciliation is determined by this
abstraction. -/
def presEq (u : Nat) (t t2 : AttrTable) : Prop :=
  t.nextId = t2.nextId ∧
  ∀ n, (t.find_for u n).isSome = (t2.find_for u n).isSome

theorem presEq_refl (u : Nat) (t : AttrTable) : presEq u t t :=
  ⟨rfl, fun _ => rfl⟩

theorem get_or_create_presEq {u : Nat} {t t2 : AttrTable} (n : String)
    (h : presEq u t t2) :
    presEq u (t.get_or_create u n).1 (t2.get_or_create u n).1 := by
  cases hf : t.find_for u n with
  | some a =>
      have h2 : (t2.find_for u n).isSome = true := by
        rw [← h.2 n, hf]; rfl
      obtain ⟨b, hb⟩ := Option.isSome_iff_exists.mp h2
      rw [get_or_create_of_found hf, get_or_create_of_found hb]
      exact h
  | none =>
      have h2 : t2.find_for u n = none := by
        have hh := h.2 n
        rw [hf] at hh
        cases hq : t2.find_for u n with
        | none => rfl
        | some b => rw [hq] at hh; simp at hh
      rw [get_or_create_of_not_found hf, get_or_create_of_not_found h2]
      refine ⟨by dsimp only; rw [h.1], ?_⟩
      intro n'
      dsimp only
      rw [find_for_extend hf n', find_for_extend h2 n']
      by_cases hn : n' = n
      · rw [if_pos hn, if_pos hn]
        rfl
      · rw [if_neg hn, if_neg hn]
        exact h.2 n'

theorem gca_presEq {u : Nat} {L : List String} :
    ∀ {t t2 : AttrTable} {assoc assoc2 : List Nat}, presEq u t t2 →
      presEq u (get_or_create_attrs t u L assoc).1
        (get_or_create_attrs t2 u L assoc2).1 := by
  induction L with
  | nil => intro t t2 a a2 h; exact h
  | cons n rest ih =>
      intro t t2 a a2 h
      rw [gca_cons, gca_cons]
      exact ih (get_or_create_presEq n h)

theorem gca_table_swap {u : Nat} (x y : String) (t : AttrTable) :
    presEq u ((t.get_or_create u x).1.get_or_create u y).1
      ((t.get_or_create u y).1.get_or_create u x).1 := by
  by_cases hxy : x = y
  · subst hxy; exact presEq_refl u _
  · cases hfx : t.find_for u x with
    | some a =>
        cases hfy : t.find_for u y with
        | some b =>
            simp only [get_or_create_of_found hfx, get_or_create_of_found hfy]
            exact presEq_refl u _
        | none =>
            have hx2 : AttrTable.find_for
                ⟨t.rows ++ [⟨t.nextId, u, y⟩], t.nextId + 1⟩ u x = some a := by
              rw [find_for_extend hfy x, if_neg hxy]
              exact hfx
            simp only [get_or_create_of_found hfx,
              get_or_create_of_not_found hfy, get_or_create_of_found hx2]
            exact presEq_refl u _
    | none =>
        cases hfy : t.find_for u y with
        | some b =>
            have hy2 : AttrTable.find_for
                ⟨t.rows ++ [⟨t.nextId, u, x⟩], t.nextId + 1⟩ u y = some b := by
              rw [find_for_extend hfx y, if_neg (fun hc => hxy hc.symm)]
              exact hfy
            simp only [get_or_create_of_not_found hfx,
              get_or_create_of_found hfy, get_or_create_of_found hy2]
            exact presEq_refl u _
        | none =>
            have hy2 : AttrTable.find_for
                ⟨t.rows ++ [⟨t.nextId, u, x⟩], t.nextId + 1⟩ u y = none := by
              rw [find_for_extend hfx y, if_neg (fun hc => hxy hc.symm)]
              exact hfy
            have hx2 : AttrTable.find_for
                ⟨t.rows ++ [⟨t.nextId, u, y⟩], t.nextId + 1⟩ u x = none := by
              rw [find_for_extend hfy x, if_neg hxy]
              exact hfx
            simp only [get_or_create_of_not_found hfx,
              get_or_create_of_not_found hfy, get_or_create_of_not_found hx2,
              get_or_create_of_not_found hy2]
            refine ⟨rfl, ?_⟩
            intro n'
            unfold AttrTable.find_for
            rw [isSome_find?_eq_any, isSome_find?_eq_any]
            simp only [List.any_append, List.any_cons, List.any_nil]
            cases t.rows.any (fun a => a.user == u && a.name == n') <;>
              simp [Bool.or_comm]

theorem gca_nextId_perm {u : Nat} {L L' : List String} (hp : L.Perm L') :
    ∀ (t : AttrTable) (assoc assoc2 : List Nat),
      (get_or_create_attrs t u L assoc).1.nextId =
        (get_or_create_attrs t u L' assoc2).1.nextId := by
  induction hp with
  | nil => intro t a a2; rfl
  | cons x hp ih =>
      intro t a a2
      simp only [gca_cons]
      exact ih _ _ _
  | swap x y L =>
      intro t a a2
      simp only [gca_cons]
      exact (gca_presEq (gca_table_swap y x t)).1
  | trans h1 h2 ih1 ih2 =>
      intro t a a2
      exact (ih1 t a a).trans (ih2 t a a2)

theorem gca_mem_iff {u : Nat} : ∀ {L : List String} {t : AttrTable}
    {assoc : List Nat} {i : Nat},
    i ∈ (get_or_create_attrs t u L assoc).2 ↔
      i ∈ assoc ∨ resolvesTo t u L i ∨
        (t.nextId ≤ i ∧ i < (get_or_create_attrs t u L assoc).1.nextId) := by
  intro L
  induction L with
  | nil =>
      intro t assoc i
      constructor
      · exact fun h => Or.inl h
      · rintro (h | h | h)
        · exact h
        · obtain ⟨n, hn, _⟩ := h
          exact absurd hn (List.not_mem_nil n)
        · exact absurd h.2 (Nat.not_lt.mpr h.1)
  | cons n rest ih =>
      intro t assoc i
      simp only [gca_cons]
      cases hf : t.find_for u n with
      | some a =>
          simp only [get_or_create_of_found hf]
          rw [ih, mem_m2mAdd, resolvesTo_cons]
          constructor
          · rintro ((h | h) | h | h)
            · exact Or.inl h
            · exact Or.inr (Or.inl (Or.inl ⟨a, hf, h.symm⟩))
            · exact Or.inr (Or.inl (Or.inr h))
            · exact Or.inr (Or.inr h)
          · rintro (h | (⟨b, hb, hbi⟩ | h) | h)
            · exact Or.inl (Or.inl h)
            · rw [hf] at hb
              injection hb with hb'
              refine Or.inl (Or.inr ?_)
              rw [← hbi, ← hb']
            · exact Or.inr (Or.inl h)
            · exact Or.inr (Or.inr h)
      | none =>
          simp only [get_or_create_of_not_found hf]
          rw [ih, mem_m2mAdd, resolvesTo_cons, resolvesTo_extend hf rest i]
          have hN : t.nextId + 1 ≤
              (get_or_create_attrs ⟨t.rows ++ [⟨t.nextId, u, n⟩], t.nextId + 1⟩
                u rest (m2mAdd assoc t.nextId)).1.nextId :=
            @gca_nextId_le u rest ⟨t.rows ++ [⟨t.nextId, u, n⟩], t.nextId + 1⟩
              (m2mAdd assoc t.nextId)
          constructor
          · rintro ((h | h) | (h | ⟨hn2, hi⟩) | ⟨h1, h2⟩)
            · exact Or.inl h
            · refine Or.inr (Or.inr ⟨Nat.le_of_eq h.symm, ?_⟩)
              rw [h]
              exact Nat.lt_of_lt_of_le (Nat.lt_succ_self _) hN
            · exact Or.inr (Or.inl (Or.inr h))
            · refine Or.inr (Or.inr ⟨Nat.le_of_eq hi.symm, ?_⟩)
              rw [hi]
              exact Nat.lt_of_lt_of_le (Nat.lt_succ_self _) hN
            · exact Or.inr (Or.inr ⟨Nat.le_of_succ_le h1, h2⟩)
          · rintro (h | (⟨b, hb, _⟩ | h) | ⟨h1, h2⟩)
            · exact Or.inl (Or.inl h)
            · rw [hf] at hb
              cases hb
            · exact Or.inr (Or.inl (Or.inl h))
            · rcases Nat.eq_or_lt_of_le h1 with heq | hlt
              · exact Or.inl (Or.inr heq.symm)
              · exact Or.inr (Or.inr ⟨hlt, h2⟩)

/-- Claim C7: reconciling a list of tag names and reconciling any
permutation of it yield the same final association set (as a set of linked
row ids) — order affects only the order of creation side effects, never the
resulting set. -/
theorem claim_C7 (t : AttrTable) (u : Nat) (assoc : List Nat)
    (L L' : List String) (hperm : L.Perm L') :
    ∀ i, i ∈ (get_or_create_attrs t u L assoc).2 ↔
      i ∈ (get_or_create_attrs t u L' assoc).2 := by
  intro i
  rw [gca_mem_iff, gca_mem_iff, gca_nextId_perm hperm t assoc assoc]
  have hres : resolvesTo t u L i ↔ resolvesTo t u L' i := by
    unfold resolvesTo
    constructor <;> rintro ⟨n, hn, b, hb, hbi⟩
    · exact ⟨n, hperm.mem_iff.mp hn, b, hb, hbi⟩
    · exact ⟨n, hperm.mem_iff.mpr hn, b, hb, hbi⟩
  rw [hres]

theorem claim_C7_witness :
    (2 ∈ (get_or_create_attrs exOtherTable 7 ["a", "b"] []).2 ↔
      2 ∈ (get_or_create_attrs exOtherTable 7 ["b", "a"] []).2) ∧
    (3 ∈ (get_or_create_attrs exOtherTable 7 ["a", "b"] []).2 ↔
      3 ∈ (get_or_create_attrs exOtherTable 7 ["b", "a"] []).2) :=
  ⟨claim_C7 exOtherTable 7 [] ["a", "b"] ["b", "a"] (List.Perm.swap "b" "a" []) 2,
   claim_C7 exOtherTable 7 [] ["a", "b"] ["b", "a"] (List.Perm.swap "b" "a" []) 3⟩

example :
    (AttrTable.get_or_create { rows := [], nextId := 1 } 7 "Indian").2 = 1 := by
  decide

example :
    (get_or_create_attrs { rows := [{ id := 1, user := 7, name := "Indian" }], nextId := 2 }
      7 ["Indian", "Breakfast"] []).2 = [1, 2] := by
  decide
